/-
Verification development for the Narrate appliance (src/app.py, src/vlm.py,
src/tts.py).

The file shallowly embeds, in Lean 4:
  * the MJPEG stream demultiplexer `_mjpeg_reader_loop` (byte search via
    Python `bytes.find`, frame extraction, and the 2 MiB accumulation cap),
  * the pipeline orchestrator `_run_pipeline` together with `capture_frame`,
    `_play_wav_on_speaker`, the TTS stage, and the `/trigger` and `/speak`
    routes, as pure functions from an environment (the outcomes of the
    external collaborators: camera, VLM worker, TTS engine, aplay) and the
    shared mutable state to the list of broadcast SSE events, the list of
    temp-file operations, and the new state,
  * one iteration of the `_voice_listener_loop` body,
  * `HailoQwen2VL.describe_image` from src/vlm.py.

Bytes are modelled as `Nat`, byte strings as `List Nat`.  All definitions are
computable and follow the Python control flow branch by branch.
-/
import Mathlib

namespace Narrate

/-! ### Byte-string search: Python `bytes.find` / `str.__contains__` -/

/-- Does `pat` occur at the head of `l`?  (Python `l[i:i+len(pat)] == pat`
viewed from position 0; a window shorter than `pat` does not match.) -/
def matchAt {α : Type} [DecidableEq α] : List α → List α → Bool
  | [], _ => true
  | _ :: _, [] => false
  | p :: ps, x :: xs => p == x && matchAt ps xs

/-- Scan for the first occurrence of `pat`, returning its absolute index;
`i` is the index of the head of the remaining list.  `bytes.find` returning
-1 is modelled as `none`. -/
def findAux {α : Type} [DecidableEq α] (pat : List α) : List α → Nat → Option Nat
  | [], _ => none
  | x :: xs, i => if matchAt pat (x :: xs) then some i else findAux pat xs (i + 1)

/-- Test that `pat` has no (full) occurrence inside `l`. -/
def noOcc {α : Type} [DecidableEq α] (pat : List α) : List α → Bool
  | [] => true
  | x :: xs => !matchAt pat (x :: xs) && noOcc pat xs

theorem matchAt_true_length {α : Type} [DecidableEq α] :
    ∀ {p l : List α}, matchAt p l = true → p.length ≤ l.length := by
  intro p
  induction p with
  | nil => intro l _; simp
  | cons a ps ih =>
    intro l h
    cases l with
    | nil => simp [matchAt] at h
    | cons x xs =>
      simp only [matchAt, Bool.and_eq_true, beq_iff_eq] at h
      simpa [Nat.succ_le_succ_iff] using ih h.2

theorem matchAt_append_true {α : Type} [DecidableEq α] :
    ∀ {p l : List α} (v : List α), matchAt p l = true → matchAt p (l ++ v) = true := by
  intro p
  induction p with
  | nil => intro l v _; simp [matchAt]
  | cons a ps ih =>
    intro l v h
    cases l with
    | nil => simp [matchAt] at h
    | cons x xs =>
      simp only [matchAt, Bool.and_eq_true, beq_iff_eq] at h
      simp only [List.cons_append, matchAt, Bool.and_eq_true, beq_iff_eq]
      exact ⟨h.1, ih v h.2⟩

theorem matchAt_append_of_length {α : Type} [DecidableEq α] :
    ∀ {p l : List α} (v : List α), p.length ≤ l.length →
      matchAt p (l ++ v) = matchAt p l := by
  intro p
  induction p with
  | nil => intro l v _; simp [matchAt]
  | cons a ps ih =>
    intro l v h
    cases l with
    | nil => simp at h
    | cons x xs =>
      simp only [List.length_cons, Nat.succ_le_succ_iff] at h
      simp only [List.cons_append, matchAt, List.append_eq]
      rw [ih v h]

theorem findAux_some {α : Type} [DecidableEq α] {pat : List α} :
    ∀ {l : List α} {i j : Nat}, findAux pat l i = some j →
      i ≤ j ∧ j - i + pat.length ≤ l.length ∧ matchAt pat (l.drop (j - i)) = true := by
  intro l
  induction l with
  | nil => intro i j h; simp [findAux] at h
  | cons x xs ih =>
    intro i j h
    by_cases hm : matchAt pat (x :: xs) = true
    · simp only [findAux, hm, if_pos] at h
      cases h
      refine ⟨Nat.le_refl _, ?_, ?_⟩
      · simpa [Nat.sub_self] using matchAt_true_length hm
      · simpa [Nat.sub_self] using hm
    · simp only [findAux, hm, if_neg, Bool.not_eq_true] at h
      obtain ⟨h1, h2, h3⟩ := ih h
      refine ⟨by omega, by simp [List.length_cons]; omega, ?_⟩
      have hji : j - i = (j - (i + 1)) + 1 := by omega
      rw [hji]
      simpa using h3

theorem findAux_ne_nil {α : Type} [DecidableEq α] {pat l : List α} {i j : Nat}
    (h : findAux pat l i = some j) : l ≠ [] := by
  intro hl; subst hl; simp [findAux] at h

theorem findAux_append {α : Type} [DecidableEq α] {pat : List α} (v : List α) :
    ∀ {l : List α} {i j : Nat}, findAux pat l i = some j →
      findAux pat (l ++ v) i = some j := by
  intro l
  induction l with
  | nil => intro i j h; simp [findAux] at h
  | cons x xs ih =>
    intro i j h
    by_cases hm : matchAt pat (x :: xs) = true
    · have hm2 : matchAt pat (x :: (xs ++ v)) = true := by
        simpa using matchAt_append_true v hm
      simp only [findAux, hm, if_pos] at h
      simp only [List.cons_append, findAux, List.append_eq]
      rw [if_pos hm2]
      exact h
    · simp only [findAux, hm, if_neg, Bool.not_eq_true] at h
      have hlen : pat.length ≤ xs.length := by
        obtain ⟨_, h2, _⟩ := findAux_some h
        omega
      have hm' : matchAt pat (x :: (xs ++ v)) = false := by
        have := matchAt_append_of_length (p := pat) (l := x :: xs) v
          (by simp [List.length_cons]; omega)
        simp only [List.cons_append] at this
        rw [this]
        simpa using hm
      simp only [List.cons_append, findAux, List.append_eq, hm',
        Bool.false_eq_true, if_false]
      exact ih h

theorem findAux_skip {α : Type} [DecidableEq α] {pat rest : List α} :
    ∀ (g : List α), (∀ k, k < g.length → matchAt pat (g.drop k ++ rest) = false) →
      ∀ i, findAux pat (g ++ rest) i = findAux pat rest (i + g.length) := by
  intro g
  induction g with
  | nil => intro _ i; simp
  | cons x xs ih =>
    intro h i
    have h0 : matchAt pat (x :: (xs ++ rest)) = false := by
      simpa using h 0 (by simp)
    simp only [List.cons_append, findAux, List.append_eq, h0,
      Bool.false_eq_true, if_false]
    have := ih (fun k hk => by simpa using h (k + 1) (by simpa using hk)) (i + 1)
    rw [this]
    congr 1
    simp [List.length_cons]
    omega

theorem noOcc_matchAt {α : Type} [DecidableEq α] {p : α} {ps : List α} :
    ∀ {l : List α}, noOcc (p :: ps) l = true →
      ∀ k, matchAt (p :: ps) (l.drop k) = false := by
  intro l
  induction l with
  | nil => intro _ k; simp [matchAt]
  | cons x xs ih =>
    intro h k
    simp only [noOcc, Bool.and_eq_true, Bool.not_eq_true'] at h
    cases k with
    | zero => simpa using h.1
    | succ k => simpa using ih h.2 k

/-! ### The MJPEG stream demultiplexer (`_mjpeg_reader_loop` in src/app.py)

The loop keeps an accumulation buffer `buf`; for each chunk read from the
camera subprocess it appends the chunk and then repeatedly extracts
`buf[start:end+2]` where `start = buf.find(b"\xff\xd8")` and
`end = buf.find(b"\xff\xd9", start)`; when no complete frame is present it
truncates `buf` to its last 1024 bytes whenever `len(buf) > 2*1024*1024`,
and waits for the next chunk.  Each extracted frame is written to the
Frame Buffer `_last_jpeg`; `drain` returns the frames written, in order,
together with the remaining buffer. -/

/-- JPEG start-of-image marker `_JPEG_SOI = b"\xff\xd8"`. -/
def SOI : List Nat := [0xff, 0xd8]

/-- JPEG end-of-image marker `_JPEG_EOI = b"\xff\xd9"`. -/
def EOI : List Nat := [0xff, 0xd9]

/-- Chunk size of the reads, `stream.read(65536)`. -/
def READ_CHUNK : Nat := 65536

/-- The accumulation cap `2 * 1024 * 1024` checked before truncation. -/
def BUF_CAP : Nat := 2 * 1024 * 1024

/-- Python `buf.find(pat, start)`: first index `≥ start` at which `pat`
occurs, `none` for -1. -/
def bfind (pat buf : List Nat) (start : Nat) : Option Nat :=
  (findAux pat (buf.drop start) 0).map (· + start)

/-- The `start`/`end` computation of one iteration of the inner `while`:
`start = buf.find(SOI)`, `end = buf.find(EOI, start) if start != -1 else -1`. -/
def findFrame (buf : List Nat) : Option (Nat × Nat) :=
  (bfind SOI buf 0).bind fun s => (bfind EOI buf s).map fun e => (s, e)

theorem bfind_some {pat buf : List Nat} {st j : Nat} (h : bfind pat buf st = some j) :
    st ≤ j ∧ j - st + pat.length ≤ buf.length - st ∧ matchAt pat (buf.drop j) = true := by
  simp only [bfind, Option.map_eq_some'] at h
  obtain ⟨j0, hf, hj⟩ := h
  obtain ⟨-, h2, h3⟩ := findAux_some hf
  subst hj
  refine ⟨by omega, ?_, ?_⟩
  · simpa [List.length_drop] using h2
  · rw [List.drop_drop] at h3
    simpa [Nat.add_comm] using h3

theorem bfind_start_lt {pat buf : List Nat} {st j : Nat} (h : bfind pat buf st = some j) :
    st < buf.length := by
  simp only [bfind, Option.map_eq_some'] at h
  obtain ⟨j0, hf, -⟩ := h
  have := findAux_ne_nil hf
  by_contra hc
  push_neg at hc
  exact this (List.drop_eq_nil_of_le hc)

theorem bfind_append {pat buf : List Nat} (v : List Nat) {st j : Nat}
    (h : bfind pat buf st = some j) : bfind pat (buf ++ v) st = some j := by
  have hst : st < buf.length := bfind_start_lt h
  simp only [bfind, Option.map_eq_some'] at h ⊢
  obtain ⟨j0, hf, hj⟩ := h
  refine ⟨j0, ?_, hj⟩
  have hd : (buf ++ v).drop st = buf.drop st ++ v := by
    rw [List.drop_append_eq_append_drop, Nat.sub_eq_zero_of_le (Nat.le_of_lt hst),
      List.drop_zero]
  rw [hd]
  exact findAux_append v hf

theorem findFrame_some_iff {buf : List Nat} {s e : Nat} :
    findFrame buf = some (s, e) ↔
      bfind SOI buf 0 = some s ∧ bfind EOI buf s = some e := by
  simp only [findFrame, Option.bind_eq_some, Option.map_eq_some', Prod.mk.injEq]
  constructor
  · rintro ⟨s0, hs, e0, he, rfl, rfl⟩; exact ⟨hs, he⟩
  · rintro ⟨hs, he⟩; exact ⟨s, hs, e, he, rfl, rfl⟩

theorem findFrame_append {buf : List Nat} (v : List Nat) {s e : Nat}
    (h : findFrame buf = some (s, e)) : findFrame (buf ++ v) = some (s, e) := by
  rw [findFrame_some_iff] at h ⊢
  exact ⟨bfind_append v h.1, bfind_append v h.2⟩

theorem findFrame_bounds {buf : List Nat} {s e : Nat}
    (h : findFrame buf = some (s, e)) : s ≤ e ∧ e + 2 ≤ buf.length := by
  rw [findFrame_some_iff] at h
  obtain ⟨hs, he⟩ := h
  obtain ⟨h1, h2, -⟩ := bfind_some he
  have h3 : s < buf.length := bfind_start_lt he
  have : EOI.length = 2 := rfl
  omega

/-- The truncation guard of the `else` branch:
`if len(buf) > 2*1024*1024: buf = buf[-1024:]`. -/
def truncCap (buf : List Nat) : List Nat :=
  if BUF_CAP < buf.length then buf.drop (buf.length - 1024) else buf

/-- The inner `while True` loop: extract complete frames until none is left,
then apply the truncation guard and stop.  Returns the frames written to the
Frame Buffer, in order, and the remaining buffer. -/
def drain (buf : List Nat) : List (List Nat) × List Nat :=
  match h : findFrame buf with
  | none => ([], truncCap buf)
  | some (s, e) =>
    ((buf.drop s).take (e + 2 - s) :: (drain (buf.drop (e + 2))).1,
     (drain (buf.drop (e + 2))).2)
termination_by buf.length
decreasing_by
  all_goals
    obtain ⟨h1, h2⟩ := findFrame_bounds h
    simp only [List.length_drop]
    omega

/-- The outer reader loop over the sequence of chunks returned by
`stream.read(65536)`: append each chunk to the buffer and run the inner
loop.  Returns all frames written, in order, and the final buffer. -/
def readerRun (buf : List Nat) : List (List Nat) → List (List Nat) × List Nat
  | [] => ([], buf)
  | c :: cs =>
    ((drain (buf ++ c)).1 ++ (readerRun (drain (buf ++ c)).2 cs).1,
     (readerRun (drain (buf ++ c)).2 cs).2)

/-- The accumulation buffers as seen right after each `buf += chunk`,
before the inner loop runs — the peak sizes of the reader's buffer. -/
def readerBufs (buf : List Nat) : List (List Nat) → List (List Nat)
  | [] => []
  | c :: cs => (buf ++ c) :: readerBufs (drain (buf ++ c)).2 cs

/-- Concatenation of the chunk partition back into the input byte stream. -/
def joinChunks : List (List Nat) → List Nat
  | [] => []
  | c :: cs => c ++ joinChunks cs

/-- A frame correctly delimited by the start and end markers, with body `b`. -/
def mkFrame (b : List Nat) : List Nat := SOI ++ b ++ EOI

theorem readerRun_cons (buf c : List Nat) (cs : List (List Nat)) :
    readerRun buf (c :: cs) =
      ((drain (buf ++ c)).1 ++ (readerRun (drain (buf ++ c)).2 cs).1,
       (readerRun (drain (buf ++ c)).2 cs).2) := rfl

/-- A reader step in which the inner loop extracts no frame: the events of
the step are empty and the loop continues with the new buffer. -/
theorem readerRun_quiet_step {buf c buf' : List Nat} (cs : List (List Nat))
    (h : drain (buf ++ c) = ([], buf')) :
    readerRun buf (c :: cs) = readerRun buf' cs := by
  rw [readerRun_cons, h]
  rfl

/-- A reader step extracting frames `fs`. -/
theorem readerRun_emit_step {buf c buf' : List Nat} {fs : List (List Nat)}
    (cs : List (List Nat)) (h : drain (buf ++ c) = (fs, buf')) :
    readerRun buf (c :: cs) =
      (fs ++ (readerRun buf' cs).1, (readerRun buf' cs).2) := by
  rw [readerRun_cons, h]

theorem drain_none {buf : List Nat} (h : findFrame buf = none) :
    drain buf = ([], truncCap buf) := by
  rw [drain, h]

theorem drain_frame {buf : List Nat} {s e : Nat} (h : findFrame buf = some (s, e)) :
    drain buf =
      ((buf.drop s).take (e + 2 - s) :: (drain (buf.drop (e + 2))).1,
       (drain (buf.drop (e + 2))).2) := by
  rw [drain, h]

theorem drain_of_le_cap_none {buf : List Nat} (h : findFrame buf = none)
    (hlen : buf.length ≤ BUF_CAP) : drain buf = ([], buf) := by
  rw [drain_none h, truncCap, if_neg (by omega)]

theorem findFrame_nil : findFrame [] = none := rfl

theorem drain_nil : drain [] = ([], []) := by
  rw [drain_none findFrame_nil]
  simp [truncCap, BUF_CAP]

/-- The buffer left behind by the inner loop never exceeds the cap: it is
either the untruncated remainder (of length at most the cap) or the last
1024 bytes. -/
theorem drain_snd_le_cap : ∀ (n : Nat) (buf : List Nat), buf.length ≤ n →
    (drain buf).2.length ≤ BUF_CAP := by
  intro n
  induction n with
  | zero =>
    intro buf hb
    have : buf = [] := List.length_eq_zero.mp (Nat.le_zero.mp hb)
    subst this
    simp [drain_nil, BUF_CAP]
  | succ n ih =>
    intro buf hb
    cases hf : findFrame buf with
    | none =>
      rw [drain_none hf]
      simp only [truncCap]
      split
      · simp only [List.length_drop]
        simp only [BUF_CAP] at *
        omega
      · simpa using by omega
    | some se =>
      obtain ⟨s, e⟩ := se
      obtain ⟨h1, h2⟩ := findFrame_bounds hf
      rw [drain_frame hf]
      exact ih (buf.drop (e + 2)) (by have := List.length_drop (e + 2) buf; omega)

/-- The buffer left behind never grows: its length is at most the input's. -/
theorem drain_snd_le_length : ∀ (n : Nat) (buf : List Nat), buf.length ≤ n →
    (drain buf).2.length ≤ buf.length := by
  intro n
  induction n with
  | zero =>
    intro buf hb
    have : buf = [] := List.length_eq_zero.mp (Nat.le_zero.mp hb)
    subst this
    simp [drain_nil]
  | succ n ih =>
    intro buf hb
    cases hf : findFrame buf with
    | none =>
      rw [drain_none hf]
      simp only [truncCap]
      split
      · simp [List.length_drop]
      · simp
    | some se =>
      obtain ⟨s, e⟩ := se
      obtain ⟨h1, h2⟩ := findFrame_bounds hf
      rw [drain_frame hf]
      show (drain (buf.drop (e + 2))).2.length ≤ buf.length
      have h3 := ih (buf.drop (e + 2)) (by have := List.length_drop (e + 2) buf; omega)
      have h4 := List.length_drop (e + 2) buf
      omega

/-- Under the cap, the leftover of a drain is quiescent: draining it again
extracts nothing and changes nothing. -/
theorem drain_snd_quiescent : ∀ (n : Nat) (buf : List Nat), buf.length ≤ n →
    buf.length ≤ BUF_CAP → drain ((drain buf).2) = ([], (drain buf).2) := by
  intro n
  induction n with
  | zero =>
    intro buf hb _
    have : buf = [] := List.length_eq_zero.mp (Nat.le_zero.mp hb)
    subst this
    rw [drain_nil]
    exact drain_nil
  | succ n ih =>
    intro buf hb hcap
    cases hf : findFrame buf with
    | none =>
      rw [drain_of_le_cap_none hf hcap]
      exact drain_of_le_cap_none hf hcap
    | some se =>
      obtain ⟨s, e⟩ := se
      obtain ⟨h1, h2⟩ := findFrame_bounds hf
      rw [drain_frame hf]
      exact ih (buf.drop (e + 2)) (by have := List.length_drop (e + 2) buf; omega)
        (by simp [List.length_drop]; omega)

/-- Streaming decomposition: draining `u ++ v` is draining `u` and then
draining its leftover together with `v`, as long as everything fits under
the cap (so that the truncation guard never interferes). -/
theorem drain_append : ∀ (n : Nat) (u v : List Nat), u.length ≤ n →
    u.length + v.length ≤ BUF_CAP →
    (drain (u ++ v)).1 = (drain u).1 ++ (drain ((drain u).2 ++ v)).1 ∧
    (drain (u ++ v)).2 = (drain ((drain u).2 ++ v)).2 := by
  intro n
  induction n with
  | zero =>
    intro u v hu _
    have : u = [] := List.length_eq_zero.mp (Nat.le_zero.mp hu)
    subst this
    rw [drain_nil]
    simp
  | succ n ih =>
    intro u v hu hcap
    cases hf : findFrame u with
    | none =>
      rw [drain_of_le_cap_none hf (by omega)]
      simp
    | some se =>
      obtain ⟨s, e⟩ := se
      obtain ⟨h1, h2⟩ := findFrame_bounds hf
      have hf2 : findFrame (u ++ v) = some (s, e) := findFrame_append v hf
      rw [drain_frame hf, drain_frame hf2]
      have hlds : (u.drop s).length = u.length - s := List.length_drop s u
      have hle : e + 2 - s ≤ (u.drop s).length := by rw [hlds]; omega
      have hdrop : (u ++ v).drop (e + 2) = u.drop (e + 2) ++ v := by
        rw [List.drop_append_eq_append_drop, Nat.sub_eq_zero_of_le h2,
          List.drop_zero]
      have htake : ((u ++ v).drop s).take (e + 2 - s) =
          (u.drop s).take (e + 2 - s) := by
        have hds : (u ++ v).drop s = u.drop s ++ v := by
          rw [List.drop_append_eq_append_drop, Nat.sub_eq_zero_of_le (by omega),
            List.drop_zero]
        rw [hds, List.take_append_eq_append_take,
          Nat.sub_eq_zero_of_le hle]
        simp
      obtain ⟨ih1, ih2⟩ := ih (u.drop (e + 2)) v
        (by have := List.length_drop (e + 2) u; omega)
        (by have := List.length_drop (e + 2) u; omega)
      rw [hdrop, htake]
      constructor
      · simp only [ih1, List.cons_append]
      · exact ih2

/-- Relating the chunked reader loop to draining the whole stream in one go:
if the initial buffer is quiescent and the total input fits under the cap,
chunking does not change the frames written. -/
theorem readerRun_frames : ∀ (chunks : List (List Nat)) (buf : List Nat),
    drain buf = ([], buf) →
    buf.length + (joinChunks chunks).length ≤ BUF_CAP →
    (readerRun buf chunks).1 = (drain (buf ++ joinChunks chunks)).1 := by
  intro chunks
  induction chunks with
  | nil =>
    intro buf hq _
    simp [readerRun, joinChunks, hq]
  | cons c cs ih =>
    intro buf hq hcap
    simp only [joinChunks, List.length_append] at hcap
    have hlen1 : (buf ++ c).length ≤ BUF_CAP := by
      simp [List.length_append]; omega
    have hq' : drain ((drain (buf ++ c)).2) = ([], (drain (buf ++ c)).2) :=
      drain_snd_quiescent (buf ++ c).length _ (Nat.le_refl _) hlen1
    have hlen2 : (drain (buf ++ c)).2.length + (joinChunks cs).length ≤ BUF_CAP := by
      have := drain_snd_le_length (buf ++ c).length _ (Nat.le_refl _)
      simp only [List.length_append] at this
      omega
    have ihx := ih _ hq' hlen2
    simp only [readerRun, ihx]
    have happ := drain_append (buf ++ c).length (buf ++ c) (joinChunks cs)
      (Nat.le_refl _) (by simp [List.length_append]; omega)
    have hassoc : buf ++ (c ++ joinChunks cs) = (buf ++ c) ++ joinChunks cs := by
      simp [List.append_assoc]
    rw [joinChunks, hassoc, happ.1]

theorem mkFrame_length (b : List Nat) : (mkFrame b).length = b.length + 4 := by
  simp [mkFrame, SOI, EOI]

theorem findAux_cons_false {α : Type} [DecidableEq α] {pat : List α} {x : α}
    {xs : List α} (h : matchAt pat (x :: xs) = false) (i : Nat) :
    findAux pat (x :: xs) i = findAux pat xs (i + 1) := by
  simp [findAux, h]

/-- Scanning for a two-byte marker `ff m` (`m ≠ ff`) over garbage `g` that
contains no occurrence of the marker, followed by a literal occurrence of
the marker: the first hit is exactly at `g.length`.  The junction window is
automatically mismatch because the byte before the marker would have to be
`ff` and the next one `m`, but the marker itself starts with `ff ≠ m`. -/
theorem findAux_skip_marker (m : Nat) (hm : m ≠ 0xff) (g : List Nat)
    {r : List Nat} (hg : noOcc [0xff, m] g = true) (i : Nat) :
    findAux [0xff, m] (g ++ 0xff :: m :: r) i = some (i + g.length) := by
  have hmb : (m == 0xff) = false := by simp [hm]
  have hskip : ∀ k, k < g.length →
      matchAt [0xff, m] (g.drop k ++ 0xff :: m :: r) = false := by
    intro k hk
    have hno := noOcc_matchAt hg k
    cases hd : g.drop k with
    | nil =>
      exfalso
      have := List.drop_eq_nil_iff.mp hd
      omega
    | cons a t =>
      cases t with
      | nil =>
        simp [matchAt, hmb]
      | cons c t2 =>
        rw [hd] at hno
        simp only [matchAt, List.cons_append, Bool.and_eq_true] at hno ⊢
        simpa using hno
  rw [findAux_skip g hskip i]
  have hhead : matchAt [0xff, m] (0xff :: m :: r) = true := by
    simp [matchAt]
  simp [findAux, hhead]

/-- One round of the inner loop on a clean buffer `g ++ frame ++ tail`:
the garbage before the frame is discarded, the frame is extracted exactly,
and the loop continues on `tail`. -/
theorem drain_clean_cons (g b tail : List Nat) (hg : noOcc SOI g = true)
    (hb : noOcc EOI b = true) :
    drain (g ++ (mkFrame b ++ tail)) =
      (mkFrame b :: (drain tail).1, (drain tail).2) := by
  have hshape : mkFrame b ++ tail = 0xff :: 0xd8 :: (b ++ 0xff :: 0xd9 :: tail) := by
    simp [mkFrame, SOI, EOI]
  have hSOI : bfind SOI (g ++ (mkFrame b ++ tail)) 0 = some g.length := by
    unfold bfind
    rw [List.drop_zero, hshape]
    have hg' : noOcc [0xff, 0xd8] g = true := hg
    rw [show (SOI : List Nat) = [0xff, 0xd8] from rfl,
      findAux_skip_marker 0xd8 (by decide) g hg' 0]
    simp
  have hEOI : bfind EOI (g ++ (mkFrame b ++ tail)) g.length =
      some (g.length + (2 + b.length)) := by
    unfold bfind
    rw [List.drop_left, hshape]
    have h1 : matchAt EOI (0xff :: 0xd8 :: (b ++ 0xff :: 0xd9 :: tail)) = false := by
      simp [EOI, matchAt]
    have h2 : matchAt EOI (0xd8 :: (b ++ 0xff :: 0xd9 :: tail)) = false := by
      simp [EOI, matchAt]
    rw [show (EOI : List Nat) = [0xff, 0xd9] from rfl] at h1 h2 ⊢
    rw [findAux_cons_false h1 0, findAux_cons_false h2 1,
      findAux_skip_marker 0xd9 (by decide) b hb 2]
    simp [Nat.add_comm]
  have hFF : findFrame (g ++ (mkFrame b ++ tail)) =
      some (g.length, g.length + (2 + b.length)) :=
    findFrame_some_iff.mpr ⟨hSOI, hEOI⟩
  rw [drain_frame hFF]
  have hdropg : (g ++ (mkFrame b ++ tail)).drop g.length = mkFrame b ++ tail :=
    List.drop_left g _
  have hidx : g.length + (2 + b.length) + 2 - g.length = (mkFrame b).length := by
    rw [mkFrame_length]; omega
  have hjpeg : ((g ++ (mkFrame b ++ tail)).drop g.length).take
      (g.length + (2 + b.length) + 2 - g.length) = mkFrame b := by
    rw [hdropg, hidx, List.take_left]
  have hrest : (g ++ (mkFrame b ++ tail)).drop (g.length + (2 + b.length) + 2) =
      tail := by
    have hassoc : g ++ (mkFrame b ++ tail) = (g ++ mkFrame b) ++ tail := by
      simp [List.append_assoc]
    rw [hassoc]
    apply List.drop_left'
    rw [List.length_append, mkFrame_length]
    omega
  rw [hjpeg, hrest]

/-- Draining a clean whole stream holding exactly two delimited frames
extracts exactly those two frames, in order. -/
theorem drain_clean_two (g0 b1 g1 b2 : List Nat) (hg0 : noOcc SOI g0 = true)
    (hb1 : noOcc EOI b1 = true) (hg1 : noOcc SOI g1 = true)
    (hb2 : noOcc EOI b2 = true) :
    drain (g0 ++ (mkFrame b1 ++ (g1 ++ (mkFrame b2 ++ [])))) =
      ([mkFrame b1, mkFrame b2], []) := by
  rw [drain_clean_cons g0 b1 _ hg0 hb1,
    drain_clean_cons g1 b2 [] hg1 hb2, drain_nil]

/-- C4 (amended): for every stream made of garbage, one delimited frame,
garbage, and a second delimited frame, and every chunking of it, the reader
writes exactly the two frames, in stream order — provided the whole stream
fits under the 2 MiB accumulation cap, so the truncation safeguard never
discards any of its bytes. -/
theorem demux_two_frames (g0 b1 g1 b2 : List Nat) (chunks : List (List Nat))
    (hs : joinChunks chunks = g0 ++ mkFrame b1 ++ g1 ++ mkFrame b2)
    (hg0 : noOcc SOI g0 = true) (hb1 : noOcc EOI b1 = true)
    (hg1 : noOcc SOI g1 = true) (hb2 : noOcc EOI b2 = true)
    (hcap : (joinChunks chunks).length ≤ BUF_CAP) :
    (readerRun [] chunks).1 = [mkFrame b1, mkFrame b2] := by
  have h1 := readerRun_frames chunks [] drain_nil (by simpa using hcap)
  rw [h1, List.nil_append, hs]
  have hassoc : g0 ++ mkFrame b1 ++ g1 ++ mkFrame b2
      = g0 ++ (mkFrame b1 ++ (g1 ++ (mkFrame b2 ++ []))) := by
    simp [List.append_assoc]
  rw [hassoc, drain_clean_two g0 b1 g1 b2 hg0 hb1 hg1 hb2]

theorem demux_two_frames_witness :
    (readerRun [] [[0xff, 0xd8, 0x01], [0xff, 0xd9, 0xff, 0xd8, 0xff, 0xd9]]).1 =
      [mkFrame [0x01], mkFrame []] :=
  demux_two_frames [] [0x01] [] [] _ (by decide) (by decide) (by decide)
    (by decide) (by decide) (by decide)

/-- C5: whatever the input stream — in particular one with no end marker for
arbitrarily long — the accumulation buffer of the reader loop never exceeds
the cap plus one read-chunk size: the leftover after each inner loop is at
most the cap, and each chunk adds at most `READ_CHUNK` bytes before the next
truncation check. -/
theorem demux_buffer_bounded (chunks : List (List Nat))
    (h : ∀ c ∈ chunks, c.length ≤ READ_CHUNK) :
    ∀ b ∈ readerBufs [] chunks, b.length ≤ BUF_CAP + READ_CHUNK := by
  have main : ∀ (cs : List (List Nat)) (buf : List Nat),
      (∀ c ∈ cs, c.length ≤ READ_CHUNK) → buf.length ≤ BUF_CAP →
      ∀ b ∈ readerBufs buf cs, b.length ≤ BUF_CAP + READ_CHUNK := by
    intro cs
    induction cs with
    | nil => intro buf _ _ b hb; simp [readerBufs] at hb
    | cons c cs ih =>
      intro buf hc hbuf b hb
      simp only [readerBufs, List.mem_cons] at hb
      rcases hb with rfl | hb
      · have := hc c (by simp)
        simp only [List.length_append]
        omega
      · exact ih (drain (buf ++ c)).2 (fun d hd => hc d (by simp [hd]))
          (drain_snd_le_cap (buf ++ c).length _ (Nat.le_refl _)) b hb
  exact main chunks [] h (by simp [BUF_CAP])

theorem demux_buffer_bounded_witness :
    ([0x01, 0x02] : List Nat).length ≤ BUF_CAP + READ_CHUNK :=
  demux_buffer_bounded [[0x01, 0x02]] (by decide) [0x01, 0x02]
    (by simp [readerBufs])

/-! ### Refutation of the unconditional two-frame claim

When the stream does not fit under the cap, the truncation guard
`buf = buf[-1024:]` can discard the start marker of a partially received
frame, and that frame is lost.  The concrete run below feeds 2 MiB of
garbage, the first frame's start marker, a 2 MiB frame body, the frame's
end marker, and a second complete frame, in chunks of at most 65536 bytes;
only the second frame is ever written to the Frame Buffer. -/

theorem noOcc_replicate_zero {p : Nat} {ps : List Nat} (hp : p ≠ 0) (n : Nat) :
    noOcc (p :: ps) (List.replicate n 0) = true := by
  induction n with
  | zero => rfl
  | succ n ih =>
    rw [List.replicate_succ]
    have hb : (p == 0) = false := by simp [hp]
    simp [noOcc, matchAt, hb, ih]

theorem findAux_zeros {p : Nat} {ps : List Nat} (hp : p ≠ 0) (n : Nat)
    (r : List Nat) (i : Nat) :
    findAux (p :: ps) (List.replicate n 0 ++ r) i = findAux (p :: ps) r (i + n) := by
  have hskip : ∀ k, k < (List.replicate n (0 : Nat)).length →
      matchAt (p :: ps) ((List.replicate n (0 : Nat)).drop k ++ r) = false := by
    intro k hk
    rw [List.drop_replicate]
    simp only [List.length_replicate] at hk
    obtain ⟨m, hm⟩ : ∃ m, n - k = m + 1 := ⟨n - k - 1, by omega⟩
    rw [hm, List.replicate_succ]
    have hb : (p == 0) = false := by simp [hp]
    simp [matchAt, hb]
  rw [findAux_skip _ hskip i]
  simp

theorem findAux_zeros_none {p : Nat} {ps : List Nat} (hp : p ≠ 0) (n i : Nat) :
    findAux (p :: ps) (List.replicate n 0) i = none := by
  have h : findAux (p :: ps) (List.replicate n 0 ++ []) i =
      findAux (p :: ps) [] (i + n) := findAux_zeros hp n [] i
  simpa [findAux] using h

theorem findFrame_zeros (n : Nat) : findFrame (List.replicate n 0) = none := by
  have hS : bfind SOI (List.replicate n 0) 0 = none := by
    unfold bfind
    rw [List.drop_zero]
    rw [show (SOI : List Nat) = 0xff :: [0xd8] from rfl,
      findAux_zeros_none (by decide) n 0]
    rfl
  unfold findFrame
  rw [hS]
  rfl

theorem drain_zeros (n : Nat) (h : n ≤ BUF_CAP) :
    drain (List.replicate n 0) = ([], List.replicate n 0) :=
  drain_of_le_cap_none (findFrame_zeros n) (by simpa using h)

theorem readerRun_zero_chunks (rest : List (List Nat)) :
    ∀ (m a : Nat), a + m * READ_CHUNK ≤ BUF_CAP →
    readerRun (List.replicate a 0)
        (List.replicate m (List.replicate READ_CHUNK 0) ++ rest) =
      readerRun (List.replicate (a + m * READ_CHUNK) 0) rest := by
  intro m
  induction m with
  | zero => intro a _; simp
  | succ m ih =>
    intro a h
    have hrc : READ_CHUNK = 65536 := rfl
    have hcons : List.replicate (m + 1) (List.replicate READ_CHUNK (0 : Nat)) =
        List.replicate READ_CHUNK 0 :: List.replicate m (List.replicate READ_CHUNK 0) :=
      rfl
    rw [hcons, List.cons_append]
    simp only [readerRun]
    have hz : List.replicate a (0 : Nat) ++ List.replicate READ_CHUNK 0 =
        List.replicate (a + READ_CHUNK) 0 := (List.replicate_add a READ_CHUNK 0).symm
    rw [hz, drain_zeros (a + READ_CHUNK) (by rw [hrc] at h ⊢; omega)]
    have ihx := ih (a + READ_CHUNK) (by rw [hrc] at h ⊢; omega)
    simp only [List.nil_append] at ihx ⊢
    rw [ihx]
    have harith : a + READ_CHUNK + m * READ_CHUNK = a + (m + 1) * READ_CHUNK := by
      ring
    rw [harith]

theorem findFrame_Q (k : Nat) :
    findFrame (List.replicate 1022 0 ++ 0xff :: 0xd8 :: List.replicate k 0) =
      none := by
  have hS : bfind SOI (List.replicate 1022 0 ++ 0xff :: 0xd8 :: List.replicate k 0)
      0 = some 1022 := by
    unfold bfind
    rw [List.drop_zero]
    rw [show (SOI : List Nat) = 0xff :: [0xd8] from rfl,
      findAux_zeros (by decide) 1022 _ 0]
    have : matchAt (0xff :: [0xd8]) (0xff :: 0xd8 :: List.replicate k 0) = true := by
      simp [matchAt]
    simp [findAux, this]
  have hE : bfind EOI (List.replicate 1022 0 ++ 0xff :: 0xd8 :: List.replicate k 0)
      1022 = none := by
    unfold bfind
    rw [List.drop_append_eq_append_drop, List.drop_replicate]
    simp only [List.length_replicate, Nat.sub_self, List.replicate_zero,
      List.nil_append, List.drop_zero]
    have h1 : matchAt EOI (0xff :: 0xd8 :: List.replicate k 0) = false := by
      simp [EOI, matchAt]
    have h2 : matchAt EOI (0xd8 :: List.replicate k 0) = false := by
      simp [EOI, matchAt]
    rw [show (EOI : List Nat) = 0xff :: [0xd9] from rfl] at h1 h2 ⊢
    rw [findAux_cons_false h1 0, findAux_cons_false h2 1,
      findAux_zeros_none (by decide) k 2]
    rfl
  unfold findFrame
  rw [hS, Option.some_bind, hE]
  rfl

theorem drain_Q (k : Nat) (h : 1024 + k ≤ BUF_CAP) :
    drain (List.replicate 1022 0 ++ 0xff :: 0xd8 :: List.replicate k 0) =
      ([], List.replicate 1022 0 ++ 0xff :: 0xd8 :: List.replicate k 0) := by
  apply drain_of_le_cap_none (findFrame_Q k)
  simp only [List.length_append, List.length_replicate, List.length_cons]
  omega

theorem readerRun_Q_chunks (rest : List (List Nat)) :
    ∀ (m k : Nat), 1024 + k + m * READ_CHUNK ≤ BUF_CAP →
    readerRun (List.replicate 1022 0 ++ 0xff :: 0xd8 :: List.replicate k 0)
        (List.replicate m (List.replicate READ_CHUNK 0) ++ rest) =
      readerRun (List.replicate 1022 0 ++ 0xff :: 0xd8 ::
          List.replicate (k + m * READ_CHUNK) 0) rest := by
  intro m
  induction m with
  | zero =>
    intro k _
    simp only [List.replicate_zero, List.nil_append, Nat.zero_mul, Nat.add_zero]
  | succ m ih =>
    intro k h
    have hrc : READ_CHUNK = 65536 := rfl
    have hcons : List.replicate (m + 1) (List.replicate READ_CHUNK (0 : Nat)) =
        List.replicate READ_CHUNK 0 :: List.replicate m (List.replicate READ_CHUNK 0) :=
      rfl
    rw [hcons, List.cons_append]
    simp only [readerRun]
    have hz : (List.replicate 1022 (0 : Nat) ++ 0xff :: 0xd8 :: List.replicate k 0)
        ++ List.replicate READ_CHUNK 0 =
        List.replicate 1022 0 ++ 0xff :: 0xd8 :: List.replicate (k + READ_CHUNK) 0 := by
      rw [List.replicate_add k READ_CHUNK 0]
      simp only [List.append_assoc, List.cons_append]
    rw [hz, drain_Q (k + READ_CHUNK) (by rw [hrc] at h ⊢; omega)]
    have ihx := ih (k + READ_CHUNK) (by rw [hrc] at h ⊢; omega)
    simp only [List.nil_append] at ihx ⊢
    rw [ihx]
    have harith : k + READ_CHUNK + m * READ_CHUNK = k + (m + 1) * READ_CHUNK := by
      ring
    rw [harith]

theorem drain_soi_chunk :
    drain (List.replicate BUF_CAP 0 ++ [0xff, 0xd8]) =
      ([], List.replicate 1022 0 ++ [0xff, 0xd8]) := by
  have hB : BUF_CAP = 2097152 := rfl
  have hS : bfind SOI (List.replicate BUF_CAP 0 ++ [0xff, 0xd8]) 0 =
      some BUF_CAP := by
    unfold bfind
    rw [List.drop_zero]
    rw [show (SOI : List Nat) = 0xff :: [0xd8] from rfl,
      findAux_zeros (by decide) BUF_CAP _ 0]
    rw [show findAux (0xff :: [0xd8]) [0xff, 0xd8] (0 + BUF_CAP) =
      some (0 + BUF_CAP) from by simp [findAux, matchAt]]
    simp
  have hdl : (List.replicate BUF_CAP (0 : Nat) ++ [0xff, 0xd8]).drop BUF_CAP =
      [0xff, 0xd8] :=
    List.drop_left' (by rw [List.length_replicate])
  have hE : bfind EOI (List.replicate BUF_CAP 0 ++ [0xff, 0xd8]) BUF_CAP =
      none := by
    unfold bfind
    rw [hdl, show findAux EOI [0xff, 0xd8] 0 = none from by decide]
    rfl
  have hFF : findFrame (List.replicate BUF_CAP 0 ++ [0xff, 0xd8]) = none := by
    unfold findFrame
    rw [hS, Option.some_bind, hE]
    rfl
  rw [drain_none hFF]
  have hlen : (List.replicate BUF_CAP (0 : Nat) ++ [0xff, 0xd8]).length =
      BUF_CAP + 2 := by
    rw [List.length_append, List.length_replicate]
    rfl
  rw [truncCap, if_pos (by rw [hlen]; omega), hlen,
    show BUF_CAP + 2 - 1024 = 2096130 from by rw [hB],
    List.drop_append_eq_append_drop, List.drop_replicate,
    List.length_replicate,
    show BUF_CAP - 2096130 = 1022 from by rw [hB],
    show (2096130 : Nat) - BUF_CAP = 0 from by rw [hB],
    List.drop_zero]

theorem drain_Q_trunc :
    drain (List.replicate 1022 0 ++ 0xff :: 0xd8 :: List.replicate BUF_CAP 0) =
      ([], List.replicate 1024 0) := by
  have hB : BUF_CAP = 2097152 := rfl
  rw [drain_none (findFrame_Q BUF_CAP)]
  have hshape : List.replicate 1022 (0 : Nat) ++ 0xff :: 0xd8 ::
      List.replicate BUF_CAP 0 =
      (List.replicate 1022 0 ++ [0xff, 0xd8]) ++ List.replicate BUF_CAP 0 := by
    rw [List.append_assoc, List.cons_append, List.cons_append, List.nil_append]
  have hAlen : (List.replicate 1022 (0 : Nat) ++ [0xff, 0xd8]).length = 1024 := by
    rw [List.length_append, List.length_replicate]
    rfl
  have hnil : (List.replicate 1022 (0 : Nat) ++ [0xff, 0xd8]).drop BUF_CAP = [] :=
    List.drop_eq_nil_of_le (by rw [hAlen, hB]; omega)
  have hlen : (List.replicate 1022 (0 : Nat) ++ 0xff :: 0xd8 ::
      List.replicate BUF_CAP 0).length = BUF_CAP + 1024 := by
    rw [List.length_append, List.length_replicate, List.length_cons,
      List.length_cons, List.length_replicate]
    omega
  rw [truncCap, if_pos (by rw [hlen]; omega), hlen,
    show BUF_CAP + 1024 - 1024 = BUF_CAP from by omega, hshape,
    List.drop_append_eq_append_drop, hnil, List.nil_append, hAlen,
    List.drop_replicate,
    show BUF_CAP - (BUF_CAP - 1024) = 1024 from by rw [hB]]

theorem drain_final :
    drain (List.replicate 1024 0 ++ [0xff, 0xd9, 0xff, 0xd8, 0xff, 0xd9]) =
      ([[0xff, 0xd8, 0xff, 0xd9]], []) := by
  have hS : bfind SOI
      (List.replicate 1024 0 ++ [0xff, 0xd9, 0xff, 0xd8, 0xff, 0xd9]) 0 =
      some 1026 := by
    unfold bfind
    rw [List.drop_zero,
      show (SOI : List Nat) = 0xff :: [0xd8] from rfl,
      findAux_zeros (by decide) 1024 _ 0,
      show findAux (0xff :: [0xd8]) [0xff, 0xd9, 0xff, 0xd8, 0xff, 0xd9]
        (0 + 1024) = some 1026 from by decide]
    rfl
  have hdrop : (List.replicate 1024 (0 : Nat) ++
      [0xff, 0xd9, 0xff, 0xd8, 0xff, 0xd9]).drop 1026 =
      [0xff, 0xd8, 0xff, 0xd9] := by
    rw [List.drop_append_eq_append_drop, List.drop_replicate,
      List.length_replicate]
    rfl
  have hE : bfind EOI
      (List.replicate 1024 0 ++ [0xff, 0xd9, 0xff, 0xd8, 0xff, 0xd9]) 1026 =
      some 1028 := by
    unfold bfind
    rw [hdrop, show findAux EOI [0xff, 0xd8, 0xff, 0xd9] 0 = some 2 from by decide]
    rfl
  have hFF : findFrame
      (List.replicate 1024 0 ++ [0xff, 0xd9, 0xff, 0xd8, 0xff, 0xd9]) =
      some (1026, 1028) := findFrame_some_iff.mpr ⟨hS, hE⟩
  rw [drain_frame hFF, hdrop]
  have hrest : (List.replicate 1024 (0 : Nat) ++
      [0xff, 0xd9, 0xff, 0xd8, 0xff, 0xd9]).drop (1028 + 2) = [] := by
    rw [List.drop_append_eq_append_drop, List.drop_replicate,
      List.length_replicate]
    rfl
  rw [hrest, drain_nil]
  rfl

theorem joinChunks_append (a b : List (List Nat)) :
    joinChunks (a ++ b) = joinChunks a ++ joinChunks b := by
  induction a with
  | nil => simp [joinChunks]
  | cons c cs ih => simp [joinChunks, ih, List.append_assoc]

theorem joinChunks_replicate_zeros (m c : Nat) :
    joinChunks (List.replicate m (List.replicate c 0)) =
      List.replicate (m * c) 0 := by
  induction m with
  | zero => simp [joinChunks]
  | succ m ih =>
    rw [List.replicate_succ]
    show List.replicate c 0 ++
      joinChunks (List.replicate m (List.replicate c 0)) = _
    rw [ih, ← List.replicate_add]
    congr 1
    ring

/-- The counterexample run, end to end: 2 MiB of garbage (32 chunks), the
start marker of frame 1, a 2 MiB frame body (32 chunks), then the end marker
of frame 1 followed by the whole of frame 2 in one final chunk.  The
truncation guard fires twice, the second time discarding frame 1's start
marker, so only frame 2 is ever written to the Frame Buffer. -/
theorem readerRun_CE :
    readerRun [] (List.replicate 32 (List.replicate READ_CHUNK 0) ++
        [[0xff, 0xd8]] ++ List.replicate 32 (List.replicate READ_CHUNK 0) ++
        [[0xff, 0xd9, 0xff, 0xd8, 0xff, 0xd9]]) =
      ([[0xff, 0xd8, 0xff, 0xd9]], []) := by
  rw [List.append_assoc, List.append_assoc]
  have e1 := readerRun_zero_chunks
    ([[0xff, 0xd8]] ++ (List.replicate 32 (List.replicate READ_CHUNK 0) ++
      [[0xff, 0xd9, 0xff, 0xd8, 0xff, 0xd9]])) 32 0 (by decide)
  rw [show List.replicate (0 + 32 * READ_CHUNK) (0 : Nat) =
      List.replicate BUF_CAP 0 from rfl,
    show List.replicate 0 (0 : Nat) = ([] : List Nat) from rfl] at e1
  rw [e1, List.cons_append, List.nil_append]
  rw [readerRun_quiet_step _ drain_soi_chunk]
  rw [show List.replicate 1022 (0 : Nat) ++ [0xff, 0xd8] =
      List.replicate 1022 0 ++ 0xff :: 0xd8 :: List.replicate 0 0 from rfl]
  rw [show List.replicate 32 (List.replicate READ_CHUNK (0 : Nat)) =
      List.replicate 31 (List.replicate READ_CHUNK 0) ++
        [List.replicate READ_CHUNK 0] from
      List.replicate_succ' 31 (List.replicate READ_CHUNK 0),
    List.append_assoc]
  have e2 := readerRun_Q_chunks
    ([List.replicate READ_CHUNK 0] ++ [[0xff, 0xd9, 0xff, 0xd8, 0xff, 0xd9]])
    31 0 (by decide)
  rw [e2, show (0 + 31 * READ_CHUNK : Nat) = 2031616 from rfl,
    List.cons_append, List.nil_append]
  have hz : (List.replicate 1022 (0 : Nat) ++ 0xff :: 0xd8 ::
      List.replicate 2031616 0) ++ List.replicate READ_CHUNK 0 =
      List.replicate 1022 0 ++ 0xff :: 0xd8 :: List.replicate BUF_CAP 0 := by
    rw [List.append_assoc, List.cons_append, List.cons_append,
      ← List.replicate_add,
      show (2031616 + READ_CHUNK : Nat) = BUF_CAP from rfl]
  have hstep : drain ((List.replicate 1022 (0 : Nat) ++ 0xff :: 0xd8 ::
      List.replicate 2031616 0) ++ List.replicate READ_CHUNK 0) =
      ([], List.replicate 1024 0) := by
    rw [hz]
    exact drain_Q_trunc
  rw [readerRun_quiet_step _ hstep]
  rw [readerRun_emit_step [] drain_final]
  rfl

/-- C4, word for word: any byte stream that consists of garbage, a first
correctly delimited frame, garbage, and a second correctly delimited frame,
fed to the reader in any partition into non-empty chunks of at most the read
size, results in both frames being written to the Frame Buffer, in stream
order, dropping neither. -/
def ClaimC4 : Prop :=
  ∀ (g0 b1 g1 b2 : List Nat) (chunks : List (List Nat)),
    (∀ c ∈ chunks, c ≠ [] ∧ c.length ≤ READ_CHUNK) →
    joinChunks chunks = g0 ++ mkFrame b1 ++ g1 ++ mkFrame b2 →
    noOcc SOI g0 = true → noOcc EOI b1 = true →
    noOcc SOI g1 = true → noOcc EOI b2 = true →
    List.Sublist [mkFrame b1, mkFrame b2] (readerRun [] chunks).1

/-- C4 as stated is false: on the run of `readerRun_CE` the first frame is
discarded by the 2 MiB truncation guard, so only one frame reaches the
Frame Buffer and the two-element sublist cannot embed into it. -/
theorem demux_drops_frame_beyond_cap : ¬ ClaimC4 := by
  intro h
  have hnn : ∀ (n : Nat), 0 < n → List.replicate n (0 : Nat) ≠ [] := by
    intro n hn he
    have hl := congrArg List.length he
    rw [List.length_replicate, List.length_nil] at hl
    omega
  have hc : ∀ c ∈ (List.replicate 32 (List.replicate READ_CHUNK (0 : Nat)) ++
      [[0xff, 0xd8]] ++ List.replicate 32 (List.replicate READ_CHUNK 0) ++
      [[0xff, 0xd9, 0xff, 0xd8, 0xff, 0xd9]]),
      c ≠ [] ∧ c.length ≤ READ_CHUNK := by
    intro c hmem
    simp only [List.mem_append, List.mem_replicate, List.mem_singleton] at hmem
    rcases hmem with ((⟨-, rfl⟩ | rfl) | ⟨-, rfl⟩) | rfl
    · exact ⟨hnn READ_CHUNK (by decide), by rw [List.length_replicate]⟩
    · exact ⟨by decide, by decide⟩
    · exact ⟨hnn READ_CHUNK (by decide), by rw [List.length_replicate]⟩
    · exact ⟨by decide, by decide⟩
  have hj : joinChunks (List.replicate 32 (List.replicate READ_CHUNK (0 : Nat)) ++
      [[0xff, 0xd8]] ++ List.replicate 32 (List.replicate READ_CHUNK 0) ++
      [[0xff, 0xd9, 0xff, 0xd8, 0xff, 0xd9]]) =
      List.replicate BUF_CAP 0 ++ mkFrame (List.replicate BUF_CAP 0) ++ [] ++
        mkFrame [] := by
    rw [joinChunks_append, joinChunks_append, joinChunks_append,
      joinChunks_replicate_zeros,
      show (32 * READ_CHUNK : Nat) = BUF_CAP from rfl,
      show joinChunks [[0xff, 0xd8]] = [0xff, 0xd8] from rfl,
      show joinChunks [[0xff, 0xd9, 0xff, 0xd8, 0xff, 0xd9]] =
        [0xff, 0xd9, 0xff, 0xd8, 0xff, 0xd9] from rfl,
      show ([0xff, 0xd9, 0xff, 0xd8, 0xff, 0xd9] : List Nat) =
        [0xff, 0xd9] ++ ([0xff, 0xd8] ++ [0xff, 0xd9]) from rfl,
      mkFrame, mkFrame, show (SOI : List Nat) = [0xff, 0xd8] from rfl,
      show (EOI : List Nat) = [0xff, 0xd9] from rfl]
    simp only [List.append_assoc, List.append_nil, List.nil_append]
  have hsub := h (List.replicate BUF_CAP 0) (List.replicate BUF_CAP 0) [] []
    _ hc hj (noOcc_replicate_zero (by decide) BUF_CAP)
    (noOcc_replicate_zero (by decide) BUF_CAP) rfl rfl
  rw [readerRun_CE] at hsub
  have hlen := hsub.length_le
  rw [List.length_cons, List.length_cons, List.length_nil] at hlen
  have hone : (([[0xff, 0xd8, 0xff, 0xd9]],
      ([] : List Nat)).1 : List (List Nat)).length = 1 := rfl
  rw [hone] at hlen
  omega

/-! ### The pipeline orchestrator (`_run_pipeline` and friends, src/app.py)

The orchestrator is embedded as a pure function of
  * an environment recording the outcome of every external collaborator
    (camera stream frame, `rpicam-still` subprocess, VLM worker future,
    Piper TTS engine, `aplay` subprocess), and
  * the shared mutable state (`_capture_lock` held?, `_voice_busy`,
    `_captured_jpeg`, `_frozen_jpeg`, `_last_narration`),
returning the list of SSE events broadcast (in order), the list of
temp-file create/delete operations (in order), and the new state.
`log`-record forwarding through the SSE channel is not modelled; only the
explicit `broadcast_event` calls are. -/

/-- The `status` phases broadcast by the code; the spec's
`processing_inference` is the code's `"processing_vlm"`. -/
inductive Phase where
  | triggered
  | capturing
  | processing_vlm
  | speaking
  | idle
deriving DecidableEq

/-- The SSE events broadcast via `broadcast_event` (log forwarding aside). -/
inductive Ev where
  | status (p : Phase)
  | trigger (active : Bool)
  | error (msg : String)
  | vlm_text (text : String)
  | captured_image
deriving DecidableEq

/-- Temp-file operations: `tempfile.mkstemp` / `os.unlink`.  File 0 is the
still-capture temp image (`capture_frame`), file 1 the synthesis temp WAV. -/
inductive FsOp where
  | create (f : Nat)
  | delete (f : Nat)
deriving DecidableEq

/-- The shared mutable state touched by the pipeline. -/
structure AppState where
  lockHeld : Bool
  voiceBusy : Bool
  capturedJpeg : Option (List Nat)
  frozenJpeg : Option (List Nat)
  lastNarration : Option String
deriving DecidableEq

/-- Outcome of the `rpicam-still` fallback inside `capture_frame`:
timeout, process exit (with decoded-file result when the exit code is 0),
or a raised exception. -/
inductive StillOutcome where
  | timeout
  | exited (code : Int) (stderr : String) (fileJpeg : List Nat)
      (decodeOk : Bool) (arr : List Nat)
  | raised (msg : String)

/-- Environment for `capture_frame`: the Frame Buffer contents and how the
stream decode / still-capture fallback behave. -/
structure CaptureEnv where
  streamJpeg : Option (List Nat)
  streamDecodeOk : Bool
  streamArr : List Nat
  stillBinary : Bool
  stillMkstempOk : Bool
  still : StillOutcome

/-- Model of `capture_frame()` from src/app.py: prefer the latest stream frame; on
a missing or undecodable stream frame fall back to a one-shot
`rpicam-still` into a scoped temp file that is always unlinked in the
`finally` block.  Returns the `(array, jpeg_bytes)` pair or `None`, plus
the temp-file operations performed. -/
def capture_frame (e : CaptureEnv) : Option (List Nat × List Nat) × List FsOp :=
  match e.streamJpeg with
  | some j =>
    if e.streamDecodeOk then (some (e.streamArr, j), [])
    else capture_frame_fallback e
  | none => capture_frame_fallback e
where
  capture_frame_fallback (e : CaptureEnv) :
      Option (List Nat × List Nat) × List FsOp :=
    if e.stillBinary = false then (none, [])
    else if e.stillMkstempOk = false then (none, [])
    else
      match e.still with
      | .timeout => (none, [.create 0, .delete 0])
      | .raised _ => (none, [.create 0, .delete 0])
      | .exited code _ fileJpeg decodeOk arr =>
        if code ≠ 0 then (none, [.create 0, .delete 0])
        else if decodeOk then (some (arr, fileJpeg), [.create 0, .delete 0])
        else (none, [.create 0, .delete 0])

/-- Outcome of the `aplay` subprocess in `_play_wav_on_speaker`. -/
inductive AplayOutcome where
  | timeout
  | exited (code : Int) (stderr : String)
  | raised (msg : String)

/-- Model of `_play_wav_on_speaker` from src/app.py: returns `(success, error)`.
Exit code −15 (SIGTERM sent by the `/stop_tts` route's `proc.terminate()`)
is intentionally treated as success; every other non-zero exit is a
failure with the first 500 bytes of stderr. -/
def play_wav_on_speaker (a : AplayOutcome) : Bool × String :=
  match a with
  | .timeout => (false, "Audio playback timed out")
  | .exited code stderr =>
    if code ≠ 0 ∧ code ≠ -15 then
      (false, "Audio playback failed: " ++ stderr.take 500)
    else (true, "")
  | .raised msg => (false, msg)

/-- Environment for the TTS stage of the pipeline and the `/speak` route. -/
structure TtsEnv where
  getTtsRaises : Option String
  available : Bool
  mkstempOk : Bool
  mkstempMsg : String
  synthOk : Bool
  aplay : AplayOutcome

/-- Stage 3 of `_run_pipeline` (the `try`-block around TTS synthesis and
playback): returns the events broadcast and the temp-file operations.  The
WAV temp file (file 1) is created by `mkstemp` and unlinked in the inner
`finally`; non-fatal errors are broadcast and execution continues. -/
def tts_stage (e : TtsEnv) (text : String) : List Ev × List FsOp :=
  match e.getTtsRaises with
  | some m => ([.error ("TTS error: " ++ m)], [])
  | none =>
    if e.available then
      if e.mkstempOk then
        if e.synthOk then
          match play_wav_on_speaker e.aplay with
          | (ok, err) =>
            (if ok = false then [.error ("Speaker: " ++ err)] else [],
             [.create 1, .delete 1])
        else ([.error "TTS synthesis failed"], [.create 1, .delete 1])
      else ([.error ("TTS error: " ++ e.mkstempMsg)], [])
    else ([.error "TTS engine not available"], [])

/-- Environment for a whole pipeline run: capture, the freeze/store block,
the VLM worker future (`Except` = raised exception, e.g. timeout), TTS. -/
structure PipelineEnv where
  cap : CaptureEnv
  storeOk : Bool
  vlm : Except String String
  tts : TtsEnv

/-- The body of `_run_pipeline` after the lock is acquired (the `try`
block, stages 1–3 and the closing `status(idle)`). -/
def pipeline_body (env : PipelineEnv) (st : AppState) :
    List Ev × List FsOp × AppState :=
  match capture_frame env.cap with
  | (none, ops) =>
    ([.status .capturing, .error "Camera not available", .status .idle],
     ops, st)
  | (some (_, jpeg), ops) =>
    let stored :=
      if env.storeOk then
        ({ st with capturedJpeg := some jpeg, frozenJpeg := some jpeg },
         [Ev.captured_image])
      else (st, [])
    match env.vlm with
    | .error e =>
      ([.status .capturing] ++ stored.2 ++
        [.status .processing_vlm, .error ("VLM failed: " ++ e), .status .idle],
       ops, stored.1)
    | .ok t0 =>
      let text := if t0 = "" then "Could not describe image." else t0
      let st2 := { stored.1 with lastNarration := some text }
      let ttsOut := tts_stage env.tts text
      ([.status .capturing] ++ stored.2 ++
        [.status .processing_vlm, .vlm_text text, .status .speaking] ++
        ttsOut.1 ++ [.status .idle],
       ops ++ ttsOut.2, st2)

/-- Model of `_run_pipeline(source)` from src/app.py.  Sets `_voice_busy`, tries the
Single-flight Lock without blocking; on failure broadcasts
`error`, clears the busy flag, broadcasts `trigger(active=False)` and
`status(idle)` and returns.  On success it runs the body and the `finally`
block releases the lock, clears the busy flag and broadcasts
`trigger(active=False)`. -/
def run_pipeline (env : PipelineEnv) (st0 : AppState) :
    List Ev × List FsOp × AppState :=
  let st1 := { st0 with voiceBusy := true }
  if st1.lockHeld then
    ([.error "Another capture is in progress", .trigger false, .status .idle],
     [], { st1 with voiceBusy := false })
  else
    let st2 := { st1 with lockHeld := true }
    let body := pipeline_body env st2
    (body.1 ++ [.trigger false], body.2.1,
     { body.2.2 with lockHeld := false, voiceBusy := false })

/-- The `/trigger` route (the `/capture` route and the voice listener's
firing branch broadcast the same two events before spawning the pipeline
thread). -/
def trigger_route (env : PipelineEnv) (st : AppState) :
    List Ev × List FsOp × AppState :=
  let run := run_pipeline env st
  ([.trigger true, .status .triggered] ++ run.1, run.2.1, run.2.2)

/-- The `status` phases carried by the events, in order. -/
def statusesOf (evs : List Ev) : List Phase :=
  evs.filterMap fun e =>
    match e with
    | .status p => some p
    | _ => none

/-- Replay of the fold of temp-file operations: `create` adds the file,
`delete` removes it.  The result is the set of files left behind. -/
def applyOps (acc : List Nat) : List FsOp → List Nat
  | [] => acc
  | .create f :: r => applyOps (acc ++ [f]) r
  | .delete f :: r => applyOps (acc.erase f) r

/-- The `/speak` route: replay-without-recapture of a given text.
`textSynthesized` records the exact argument passed to
`tts.synthesize_to_file` (or `none` when synthesis is never reached). -/
structure SpeakOut where
  httpCode : Nat
  textSynthesized : Option String
  ops : List FsOp

def speak_route (text : String) (e : TtsEnv) : SpeakOut :=
  if text = "" then ⟨400, none, []⟩
  else if e.available = false then ⟨503, none, []⟩
  else if e.mkstempOk = false then ⟨500, none, []⟩
  else if e.synthOk = false then ⟨500, some text, [.create 1, .delete 1]⟩
  else
    match play_wav_on_speaker e.aplay with
    | (ok, _) =>
      if ok then ⟨200, some text, [.create 1, .delete 1]⟩
      else ⟨500, some text, [.create 1, .delete 1]⟩

/-! ### The voice listener (`_voice_listener_loop`, src/app.py) -/

/-- One recognizer answer per audio chunk: a final or a partial transcript. -/
inductive RecogOut where
  | finalText (t : String)
  | partialText (t : String)

/-- What one iteration of the listener loop body did. -/
structure VoiceStep where
  chunkRead : Bool
  started : Bool
  lastTrigger : Int
  recognizerReset : Bool

def VOSK_TRIGGER : String := "capture image"

def VOSK_COOLDOWN : Int := 3

/-- Python substring test `needle in hay`. -/
def pyIn (needle hay : String) : Bool := (findAux needle.data hay.data 0).isSome

/-- One iteration of the `while True` body of `_voice_listener_loop`:
`stream.read` always happens first; when `_voice_busy` is set the chunk is
dropped (`continue`) before any recognition; otherwise the trigger phrase
is looked for in the final or partial transcript, subject to the cooldown,
and on a trigger the pipeline thread is spawned and the recognizer reset. -/
def voice_listener_step (busy : Bool) (recog : RecogOut)
    (now lastTrigger : Int) : VoiceStep :=
  if busy then ⟨true, false, lastTrigger, false⟩
  else
    let text := match recog with
      | .finalText t => t
      | .partialText t => t
    if pyIn VOSK_TRIGGER text = true ∧ now - lastTrigger > VOSK_COOLDOWN then
      ⟨true, true, now, true⟩
    else ⟨true, false, lastTrigger, false⟩

/-! ### `HailoQwen2VL.describe_image` (src/vlm.py) -/

/-- Outcome of the Hailo `generate_all` call (and of the conversion and
resizing steps before it): a raised exception, or a returned result
(`none` models Python `None`). -/
inductive GenOutcome where
  | raised (msg : String)
  | ok (result : Option String)

/-- Model of `HailoQwen2VL.describe_image`: a total function — every failure is
converted to a fixed bracketed string, never an exception.  `String.trim`
models Python's `str.strip()`. -/
def describe_image (available : Bool) (gen : GenOutcome) : String :=
  if available = false then "[Qwen2-VL on Hailo-10H: not available.]"
  else
    match gen with
    | .raised _ => "[VLM inference error.]"
    | .ok result =>
      match result with
      | none => ""
      | some s => if s = "" then "" else s.trim

/-! ### Helper lemmas about the pipeline embedding -/

theorem applyOps_append (acc : List Nat) :
    ∀ (x y : List FsOp), applyOps acc (x ++ y) = applyOps (applyOps acc x) y := by
  intro x
  induction x generalizing acc with
  | nil => intro y; simp [applyOps]
  | cons c r ih =>
    intro y
    cases c with
    | create f => simp [applyOps, ih]
    | delete f => simp [applyOps, ih]

theorem capture_frame_ops (e : CaptureEnv) :
    (capture_frame e).2 = [] ∨ (capture_frame e).2 = [.create 0, .delete 0] := by
  rcases e with ⟨sj, sdec, sarr, sbin, smk, still⟩
  cases sj <;> cases sdec <;> cases sbin <;> cases smk <;>
    rcases still with _ | ⟨code, stderr, fj, dok, arr⟩ | m <;>
    simp [capture_frame, capture_frame.capture_frame_fallback] <;>
    split_ifs <;> simp

theorem tts_stage_ops (e : TtsEnv) (t : String) :
    (tts_stage e t).2 = [] ∨ (tts_stage e t).2 = [.create 1, .delete 1] := by
  rcases e with ⟨gr, av, mk, mm, sy, ap⟩
  cases gr <;> cases av <;> cases mk <;> cases sy <;>
    simp [tts_stage]

theorem pipeline_body_ops (env : PipelineEnv) (st : AppState) :
    (pipeline_body env st).2.1 = (capture_frame env.cap).2 ∨
    ∃ t, (pipeline_body env st).2.1 =
      (capture_frame env.cap).2 ++ (tts_stage env.tts t).2 := by
  unfold pipeline_body
  rcases hcf : capture_frame env.cap with ⟨res, ops⟩
  cases res with
  | none => left; simp
  | some p =>
    obtain ⟨arr, jpeg⟩ := p
    cases hv : env.vlm with
    | error e => left; simp
    | ok t0 =>
      right
      exact ⟨if t0 = "" then "Could not describe image." else t0, by simp⟩

/-! ### C1, C3, C9 -/

/-- C1: a `run()` invocation while the Single-flight Lock is already held
returns immediately after broadcasting exactly `error`,
`trigger(active=false)` and `status(idle)`, performs no file operations,
and leaves every piece of shared state except the (re-cleared) busy flag
untouched — in particular the lock stays held, so the concurrent holder is
unaffected. -/
theorem busy_reject (env : PipelineEnv) (st : AppState) (h : st.lockHeld = true) :
    (run_pipeline env st).1 =
      [.error "Another capture is in progress", .trigger false, .status .idle] ∧
    (run_pipeline env st).2.1 = [] ∧
    (run_pipeline env st).2.2 = { st with voiceBusy := false } := by
  simp [run_pipeline, h]

theorem busy_reject_witness :
    (run_pipeline
      ⟨⟨none, false, [], false, false, .timeout⟩, false, .ok "",
        ⟨none, false, false, "", false, .timeout⟩⟩
      ⟨true, false, none, none, none⟩).1 =
      [.error "Another capture is in progress", .trigger false,
        .status .idle] :=
  (busy_reject _ _ rfl).1

/-- C3: a run that acquires the Single-flight Lock releases it and
broadcasts `trigger(active=false)` as its very last event on every exit
path — the `finally` block runs whether the body succeeded, returned early
on a stage failure, or raised. -/
theorem single_flight_release (env : PipelineEnv) (st : AppState)
    (h : st.lockHeld = false) :
    (run_pipeline env st).2.2.lockHeld = false ∧
    (run_pipeline env st).1.getLast? = some (.trigger false) := by
  simp [run_pipeline, h, List.getLast?_concat]

theorem single_flight_release_witness :
    (run_pipeline
      ⟨⟨none, false, [], false, false, .timeout⟩, false, .ok "",
        ⟨none, false, false, "", false, .timeout⟩⟩
      ⟨false, false, none, none, none⟩).2.2.lockHeld = false :=
  (single_flight_release _ _ rfl).1

/-- C9: whatever the environment and initial state, replaying the run's
temp-file operations (the still-capture temp image, file 0, and the
synthesis temp WAV, file 1) from an empty filesystem leaves no file
behind: each `mkstemp` is paired with a later `unlink` on every path. -/
theorem temp_files_cleaned (env : PipelineEnv) (st : AppState) :
    applyOps [] (run_pipeline env st).2.1 = [] := by
  by_cases hl : st.lockHeld
  · simp [run_pipeline, hl, applyOps]
  · have hops : (run_pipeline env st).2.1 =
        (pipeline_body env { st with voiceBusy := true, lockHeld := true }).2.1 := by
      simp [run_pipeline, hl]
    rw [hops]
    rcases pipeline_body_ops env { st with voiceBusy := true, lockHeld := true }
      with hb | ⟨t, hb⟩ <;> rw [hb]
    · rcases capture_frame_ops env.cap with hc | hc <;> rw [hc] <;> rfl
    · rw [applyOps_append]
      rcases capture_frame_ops env.cap with hc | hc <;>
        rcases tts_stage_ops env.tts t with ht | ht <;> rw [hc, ht] <;> rfl

theorem statusesOf_nil : statusesOf [] = [] := rfl

theorem statusesOf_append (a b : List Ev) :
    statusesOf (a ++ b) = statusesOf a ++ statusesOf b := by
  simp [statusesOf]

theorem statusesOf_status (p : Phase) (r : List Ev) :
    statusesOf (.status p :: r) = p :: statusesOf r := rfl

theorem statusesOf_trigger (b : Bool) (r : List Ev) :
    statusesOf (.trigger b :: r) = statusesOf r := rfl

theorem statusesOf_error (m : String) (r : List Ev) :
    statusesOf (.error m :: r) = statusesOf r := rfl

theorem statusesOf_vlm_text (t : String) (r : List Ev) :
    statusesOf (.vlm_text t :: r) = statusesOf r := rfl

theorem statusesOf_captured (r : List Ev) :
    statusesOf (.captured_image :: r) = statusesOf r := rfl

theorem tts_stage_statuses (e : TtsEnv) (t : String) :
    statusesOf (tts_stage e t).1 = [] := by
  rcases e with ⟨gr, av, mk, mm, sy, ap⟩
  rcases hpw : play_wav_on_speaker ap with ⟨ok, err⟩
  cases gr <;> cases av <;> cases mk <;> cases sy <;> cases ok <;>
    simp [tts_stage, hpw, statusesOf_error, statusesOf_nil]

theorem pipeline_body_statuses (env : PipelineEnv) (st : AppState) :
    statusesOf (pipeline_body env st).1 = [.capturing, .idle] ∨
    statusesOf (pipeline_body env st).1 = [.capturing, .processing_vlm, .idle] ∨
    statusesOf (pipeline_body env st).1 =
      [.capturing, .processing_vlm, .speaking, .idle] := by
  unfold pipeline_body
  rcases hcf : capture_frame env.cap with ⟨res, ops⟩
  cases res with
  | none =>
    left
    simp [statusesOf_status, statusesOf_error, statusesOf_nil]
  | some p =>
    obtain ⟨arr, jpeg⟩ := p
    cases hv : env.vlm with
    | error e =>
      right; left
      cases hst : env.storeOk <;>
        simp [hst, statusesOf_append, statusesOf_status, statusesOf_error,
          statusesOf_captured, statusesOf_nil]
    | ok t0 =>
      right; right
      cases hst : env.storeOk <;>
        simp [hst, statusesOf_append, statusesOf_status, statusesOf_error,
          statusesOf_captured, statusesOf_vlm_text, statusesOf_nil,
          tts_stage_statuses]

/-- C2: the `status` phases observed over one triggered pipeline run (the
trigger route broadcasts `triggered`, then `_run_pipeline` takes over) form
a prefix of `triggered, capturing, processing_vlm, speaking` — the code's
`processing_vlm` phase is the spec's `processing_inference` — truncated at
the failing stage, and always terminated by exactly one final `idle`. -/
theorem status_sequence (env : PipelineEnv) (st : AppState) :
    ∃ k, statusesOf (trigger_route env st).1 =
      List.take k [Phase.triggered, Phase.capturing, Phase.processing_vlm,
        Phase.speaking] ++ [Phase.idle] := by
  by_cases hl : st.lockHeld
  · refine ⟨1, ?_⟩
    have hev : (trigger_route env st).1 =
        [.trigger true, .status .triggered, .error "Another capture is in progress",
          .trigger false, .status .idle] := by
      simp [trigger_route, run_pipeline, hl]
    rw [hev]
    rfl
  · have hev : (trigger_route env st).1 = [.trigger true, .status .triggered] ++
        ((pipeline_body env
          { st with voiceBusy := true, lockHeld := true }).1 ++ [.trigger false]) := by
      simp [trigger_route, run_pipeline, hl]
    rw [hev, statusesOf_append, statusesOf_append]
    rcases pipeline_body_statuses env
        { st with voiceBusy := true, lockHeld := true } with hb | hb | hb <;>
      rw [hb] <;>
      [exact ⟨2, rfl⟩; exact ⟨3, rfl⟩; exact ⟨4, rfl⟩]

/-- C6: when inference succeeds, empty text is replaced by the fixed
fallback string; non-empty text is broadcast verbatim in the `vlm_text`
event (the spec's `inference_text`), stored verbatim as Last Narration, and
a replay through the `/speak` route passes that exact text to synthesis. -/
theorem narration_text (env : PipelineEnv) (st : AppState) (t : String)
    (j : List Nat) (hl : st.lockHeld = false)
    (hcj : env.cap.streamJpeg = some j) (hcd : env.cap.streamDecodeOk = true)
    (hv : env.vlm = .ok t) :
    (t = "" → Ev.vlm_text "Could not describe image." ∈ (run_pipeline env st).1 ∧
      (run_pipeline env st).2.2.lastNarration = some "Could not describe image.") ∧
    (t ≠ "" → Ev.vlm_text t ∈ (run_pipeline env st).1 ∧
      (run_pipeline env st).2.2.lastNarration = some t ∧
      ∀ e : TtsEnv, e.available = true → e.mkstempOk = true →
        (speak_route t e).textSynthesized = some t) := by
  have hcap : capture_frame env.cap = (some (env.cap.streamArr, j), []) := by
    simp [capture_frame, hcj, hcd]
  constructor
  · intro ht
    subst ht
    constructor
    · simp [run_pipeline, hl, pipeline_body, hcap, hv]
    · simp [run_pipeline, hl, pipeline_body, hcap, hv]
  · intro ht
    refine ⟨?_, ?_, ?_⟩
    · simp [run_pipeline, hl, pipeline_body, hcap, hv, ht]
    · simp [run_pipeline, hl, pipeline_body, hcap, hv, ht]
    · intro e hav hmk
      rcases hpw : play_wav_on_speaker e.aplay with ⟨ok, err⟩
      cases hsy : e.synthOk <;> cases ok <;>
        simp [speak_route, ht, hav, hmk, hsy, hpw]

theorem narration_text_witness :
    Ev.vlm_text "a red mug on a table" ∈
      (run_pipeline
        ⟨⟨some [9], true, [7], false, false, .timeout⟩, true,
          .ok "a red mug on a table",
          ⟨none, true, true, "", true, .exited 0 ""⟩⟩
        ⟨false, false, none, none, none⟩).1 :=
  ((narration_text _ _ _ [9] rfl rfl rfl rfl).2 (by decide)).1

/-- C7: playback terminated by the user's stop request (SIGTERM from
`/stop_tts`, exit code −15) is classified as success, distinguished from
every other non-zero exit code; in a run whose playback ends that way no
`error` event is broadcast and the run still ends with `status(idle)`. -/
theorem playback_user_stop (env : PipelineEnv) (st : AppState)
    (stderr t : String) (j : List Nat)
    (hl : st.lockHeld = false) (hcj : env.cap.streamJpeg = some j)
    (hcd : env.cap.streamDecodeOk = true) (hv : env.vlm = .ok t)
    (hg : env.tts.getTtsRaises = none) (hav : env.tts.available = true)
    (hmk : env.tts.mkstempOk = true) (hsy : env.tts.synthOk = true)
    (hap : env.tts.aplay = .exited (-15) stderr) :
    play_wav_on_speaker (.exited (-15) stderr) = (true, "") ∧
    (∀ (c : Int) (s : String), c ≠ 0 → c ≠ -15 →
      (play_wav_on_speaker (.exited c s)).1 = false) ∧
    (∀ m, Ev.error m ∉ (run_pipeline env st).1) ∧
    (statusesOf (run_pipeline env st).1).getLast? = some .idle := by
  have hcap : capture_frame env.cap = (some (env.cap.streamArr, j), []) := by
    simp [capture_frame, hcj, hcd]
  have hplay : play_wav_on_speaker (.exited (-15) stderr) = (true, "") := by
    simp [play_wav_on_speaker]
  have htts : tts_stage env.tts (if t = "" then "Could not describe image." else t)
      = ([], [.create 1, .delete 1]) := by
    rw [tts_stage, hg]
    simp [hav, hmk, hsy, hap, hplay]
  refine ⟨hplay, ?_, ?_, ?_⟩
  · intro c s hc hc15
    simp [play_wav_on_speaker, hc, hc15]
  · intro m
    cases hst : env.storeOk <;>
      simp [run_pipeline, hl, pipeline_body, hcap, hv, hst, htts]
  · cases hst : env.storeOk <;>
      simp [run_pipeline, hl, pipeline_body, hcap, hv, hst, htts,
        statusesOf_append, statusesOf_status, statusesOf_trigger,
        statusesOf_captured, statusesOf_vlm_text, statusesOf_nil]

theorem playback_user_stop_witness :
    play_wav_on_speaker (.exited (-15) "x") = (true, "") :=
  (playback_user_stop
    ⟨⟨some [9], true, [7], false, false, .timeout⟩, true, .ok "hello",
      ⟨none, true, true, "", true, .exited (-15) "x"⟩⟩
    ⟨false, false, none, none, none⟩ "x" "hello" [9]
    rfl rfl rfl rfl rfl rfl rfl rfl rfl).1

/-- C8: while the `_voice_busy` flag is set, an iteration of the voice
listener still reads its audio chunk from the microphone (the
`stream.read` precedes the busy check) but never starts a pipeline run,
whatever the recognizer returned and whatever the cooldown clock says —
including right after a concurrent trigger was rejected. -/
theorem voice_busy_drains (recog : RecogOut) (now lastTrigger : Int) :
    (voice_listener_step true recog now lastTrigger).started = false ∧
    (voice_listener_step true recog now lastTrigger).chunkRead = true := by
  constructor <;> rfl

/-- C10: `describe_image` is a total function: an unavailable backend
yields the fixed non-empty string `"[Qwen2-VL on Hailo-10H: not
available.]"`, an internal inference failure the fixed non-empty string
`"[VLM inference error.]"`; fed back through the orchestrator such a
failure surfaces as an ordinary `vlm_text` narration event and produces no
`error` event. -/
theorem vlm_failures_as_text (g : GenOutcome) (m : String)
    (env : PipelineEnv) (st : AppState) (j : List Nat)
    (hl : st.lockHeld = false) (hcj : env.cap.streamJpeg = some j)
    (hcd : env.cap.streamDecodeOk = true)
    (hv : env.vlm = .ok (describe_image true (.raised m)))
    (hg : env.tts.getTtsRaises = none) (hav : env.tts.available = true)
    (hmk : env.tts.mkstempOk = true) (hsy : env.tts.synthOk = true)
    (hap : env.tts.aplay = .exited 0 "") :
    describe_image false g = "[Qwen2-VL on Hailo-10H: not available.]" ∧
    describe_image true (.raised m) = "[VLM inference error.]" ∧
    ("[Qwen2-VL on Hailo-10H: not available.]" : String) ≠ "" ∧
    ("[VLM inference error.]" : String) ≠ "" ∧
    Ev.vlm_text "[VLM inference error.]" ∈ (run_pipeline env st).1 ∧
    (∀ s, Ev.error s ∉ (run_pipeline env st).1) := by
  have hcap : capture_frame env.cap = (some (env.cap.streamArr, j), []) := by
    simp [capture_frame, hcj, hcd]
  have hdesc : describe_image true (.raised m) = "[VLM inference error.]" := rfl
  have hplay : play_wav_on_speaker (.exited 0 "") = (true, "") := by
    simp [play_wav_on_speaker]
  have htts : tts_stage env.tts "[VLM inference error.]"
      = ([], [.create 1, .delete 1]) := by
    rw [tts_stage, hg]
    simp [hav, hmk, hsy, hap, hplay]
  rw [hdesc] at hv
  refine ⟨rfl, hdesc, by decide, by decide, ?_, ?_⟩
  · cases hst : env.storeOk <;>
      simp [run_pipeline, hl, pipeline_body, hcap, hv, hst]
  · intro s
    cases hst : env.storeOk <;>
      simp [run_pipeline, hl, pipeline_body, hcap, hv, hst, htts]

theorem vlm_failures_as_text_witness :
    Ev.vlm_text "[VLM inference error.]" ∈
      (run_pipeline
        ⟨⟨some [9], true, [7], false, false, .timeout⟩, true,
          .ok (describe_image true (.raised "boom")),
          ⟨none, true, true, "", true, .exited 0 ""⟩⟩
        ⟨false, false, none, none, none⟩).1 :=
  (vlm_failures_as_text (.ok none) "boom" _ _ [9]
    rfl rfl rfl rfl rfl rfl rfl rfl rfl).2.2.2.2.1

end Narrate
